import Mathlib

/-!
Verification of the PyCNL Namespace tree and segment-stream protocol.
This file gives a shallow embedding, in Lean, of the core operations of the
PyCNL library (python/pycnl/namespace.py, segment_stream_handler.py,
segmented_object_handler.py, impl/pending_incoming_interest_table.py) and
proves properties about them.  Name components are modelled as natural
numbers, byte strings as lists of naturals, and times as integers
(milliseconds).  Machine floats in the source hold millisecond times and
are modelled as integers; Python integer arithmetic is unbounded, matching
Lean's Nat/Int.
-/

set_option maxHeartbeats 1000000

/-! ## The Namespace tree (namespace.py): children maps and getChild -/

/-- A Namespace node for tree-shape purposes: the `_children` dictionary,
keyed by name component, kept as an association list in insertion order. -/
inductive NsTree where
  | mk : List (Nat × NsTree) → NsTree
deriving Repr

/-- The `_children` association list of a node. -/
def NsTree.children : NsTree → List (Nat × NsTree)
  | NsTree.mk cs => cs

/-- Dictionary lookup `self._children[component]`. -/
def lookupChild : List (Nat × NsTree) → Nat → Option NsTree
  | [], _ => none
  | (k, t) :: rest, c => if k = c then some t else lookupChild rest c

/-- Dictionary store `self._children[component] = child` (replace the
binding when the key exists, otherwise insert at the end). -/
def storeChild : List (Nat × NsTree) → Nat → NsTree → List (Nat × NsTree)
  | [], c, t => [(c, t)]
  | (k, u) :: rest, c, t =>
      if k = c then (c, t) :: rest else (k, u) :: storeChild rest c t

/-- Follow a relative name (a list of components) down the tree without
creating anything: the lookup part of `Namespace.hasChild`. -/
def lookupPath : NsTree → List Nat → Option NsTree
  | t, [] => some t
  | t, c :: rest =>
      match lookupChild t.children c with
      | none => none
      | some child => lookupPath child rest

/-- The find-or-create loop of `Namespace.getChild` for a descendant name,
given as the suffix of components below this node (the source first checks
that this node's name is a prefix of the descendant name and then walks the
remaining components).  `base` is the full name of this node, used to label
the NAME_EXISTS notification that `_createChild` fires (via `_setState`)
exactly when the component created is the leaf (`fireCallbacks = isLeaf` in
the source).  Returns the updated tree, the node found or created, and the
list of names for which a NAME_EXISTS notification was fired. -/
def getChildFrom (t : NsTree) (base : List Nat) :
    List Nat → NsTree × NsTree × List (List Nat)
  | [] => (t, t, [])
  | c :: rest =>
      match lookupChild t.children c with
      | some child =>
          let r := getChildFrom child (base ++ [c]) rest
          (NsTree.mk (storeChild t.children c r.1), r.2.1, r.2.2)
      | none =>
          let evs0 : List (List Nat) :=
            if rest.isEmpty then [base ++ [c]] else []
          let r := getChildFrom (NsTree.mk []) (base ++ [c]) rest
          (NsTree.mk (storeChild t.children c r.1), r.2.1, evs0 ++ r.2.2)

/-! ## Namespace node data attachment (namespace.py setData and _onData) -/

/-- NamespaceState enum values from namespace.py. -/
def NamespaceState.NAME_EXISTS : Nat := 0

def NamespaceState.DATA_RECEIVED : Nat := 4

def NamespaceState.OBJECT_READY : Nat := 14

/-- NamespaceValidateState enum values from namespace.py. -/
def NamespaceValidateState.WAITING_FOR_DATA : Nat := 0

def NamespaceValidateState.VALIDATING : Nat := 1

/-- The MetaInfo of a Data packet, restricted to the fields the model
needs: the freshness period in milliseconds (None when not set). -/
structure PktMetaInfo where
  freshnessPeriod : Option Int
deriving Repr, DecidableEq

/-- A Data packet: a name, a content byte string and MetaInfo. -/
structure DataPkt where
  name : List Nat
  content : List Nat
  metaInfo : PktMetaInfo
deriving Repr, DecidableEq

/-- The per-node mutable attributes of a Namespace node that
`setData` / `_onData` read and write. -/
structure NsNodeRec where
  name : List Nat
  data : Option DataPkt
  obj : Option (List Nat)
  state : Nat
  validateState : Nat
  freshnessExpiryTimeMilliseconds : Option Int
deriving Repr, DecidableEq

/-- `Namespace.setData`: if a Data packet is already attached, return False
and change nothing; if the packet name does not equal the node name, raise
RuntimeError; otherwise satisfy pending interests (modelled separately, see
`satisfyInterests`), update `_freshnessExpiryTimeMilliseconds` from the
packet's freshness period, attach the packet and return True.  The source
does not touch `_state` here. -/
def NsNodeRec.setData (node : NsNodeRec) (d : DataPkt) (now : Int) :
    Except String (Bool × NsNodeRec) :=
  match node.data with
  | some _ => Except.ok (false, node)
  | none =>
      if d.name = node.name then
        let expiry : Option Int :=
          match d.metaInfo.freshnessPeriod with
          | some p => if 0 ≤ p then some (now + p) else none
          | none => none
        Except.ok (true,
          { node with data := some d,
                      freshnessExpiryTimeMilliseconds := expiry })
      else
        Except.error
          "The Data packet name does not equal the name of this Namespace node."

/-- `Namespace._onData`, restricted to the case the claims are about: the
arriving packet's name equals this node's name (so the source's
`dataNamespace = self[data.name]` is this node), no decryptor and no
handler is configured.  The source calls `setData`, returns silently when a
packet was already attached, then sets the state to DATA_RECEIVED, the
validate state to VALIDATING, and deserializes the content directly
(`_defaultOnDeserialized`), which sets the object and the state
OBJECT_READY.  Returns the updated node and the trace of values assigned to
the lifecycle state, in order. -/
def NsNodeRec.onData (node : NsNodeRec) (d : DataPkt) (now : Int) :
    NsNodeRec × List Nat :=
  match node.setData d now with
  | Except.error _ => (node, [])
  | Except.ok (false, n) => (n, [])
  | Except.ok (true, n) =>
      let n1 := { n with state := NamespaceState.DATA_RECEIVED }
      let n2 := { n1 with validateState := NamespaceValidateState.VALIDATING }
      let n3 := { n2 with obj := some d.content,
                          state := NamespaceState.OBJECT_READY }
      (n3, [NamespaceState.DATA_RECEIVED, NamespaceState.OBJECT_READY])

/-! ## Object segmentation (segment_stream_handler.py setObject) -/

/-- One produced segment Data packet: the segment number appended to the
namespace name, the chunk of the object that became the content, and the
final-block marker (a segment number) set in the MetaInfo. -/
structure SegData where
  segment : Nat
  content : List Nat
  finalBlockId : Nat
deriving Repr, DecidableEq, Inhabited

/-- The chunking loop of `setObject`: while `offset < obj.size()`, take a
chunk `obj[offset : offset + maxSegmentPayloadLength]` (shorter at the
end) and advance the offset.  Structured as fuel-based recursion on the
remaining list; the fuel `obj.length` is enough whenever `1 ≤ L`
(the source's setter raises on `maxSegmentPayloadLength < 1`). -/
def chunksGo (L : Nat) : Nat → List Nat → List (List Nat)
  | _, [] => []
  | 0, _ :: _ => []
  | fuel + 1, x :: xs => ((x :: xs).take L) :: chunksGo L fuel ((x :: xs).drop L)

/-- The list of payload chunks that the `setObject` loop produces. -/
def chunks (L : Nat) (obj : List Nat) : List (List Nat) :=
  chunksGo L obj.length obj

/-- The final segment number computed by the first `setObject` loop: the
index of the last chunk, and 0 (the initialization value) when the object
is empty and the loop body never runs. -/
def finalSegmentNum (L : Nat) (obj : List Nat) : Nat :=
  (chunks L obj).length - 1

/-- The segment Data packets created by the second `setObject` loop: the
i-th chunk becomes the content of segment i, and every packet's MetaInfo
carries the same final-block marker `finalSegmentNum`. -/
def setObjectSegments (L : Nat) (obj : List Nat) : List SegData :=
  (chunks L obj).enum.map
    (fun p => { segment := p.1, content := p.2,
                finalBlockId := finalSegmentNum L obj })

/-! ## Manifest verification (segment_stream_handler.py verifyWithManifest) -/

/-- The `_manifest` content built by `setObject(..., useSignatureManifest)`:
a preallocated zeroed buffer of `(finalSegment + 1) * 32` bytes in which
the implicit digest of segment `i` is written at offset `i * 32`.  For a
nonempty object the segments are numbered consecutively from 0 and the
32-byte SHA-256 digests exactly fill the buffer, so it is the
concatenation of the digests in segment order; for an empty object
`finalSegment` stays 0, the chunking loop writes nothing, and the buffer
remains 32 zero bytes.  The implicit digest computation
(`data.getFullName()[-1]`, a SHA-256 of the encoded packet) is external to
this library and is modelled by the abstract function `dig`. -/
def manifestContentOf (dig : SegData → List Nat) (segs : List SegData) :
    List Nat :=
  if segs.isEmpty then List.replicate 32 0 else (segs.map dig).flatten

/-- The per-segment loop of `verifyWithManifest`: for each segment number,
recompute the stored packet's implicit digest, return False if its length
is not 32 or if any of its 32 bytes differs from the manifest byte at
offset `segment * 32 + i`, else continue. -/
def verifySegLoop (dig : SegData → List Nat) (manifest : List Nat)
    (segAt : Nat → SegData) : List Nat → Bool
  | [] => true
  | s :: rest =>
      if (dig (segAt s)).length ≠ 32 then false
      else if (List.range 32).all
          (fun i => (dig (segAt s)).getD i 0 == manifest.getD (32 * s + i) 0)
        then verifySegLoop dig manifest segAt rest
        else false

/-- `SegmentStreamHandler.verifyWithManifest`: compute
`nSegments = len(manifestContent) / 32` (Python 2 integer division, which
is how the source runs correctly), fail if the manifest length is not an
exact multiple of the digest size, then run the per-segment digest
comparison loop over segments `0 .. nSegments - 1`. -/
def verifyWithManifest (dig : SegData → List Nat) (manifest : List Nat)
    (segAt : Nat → SegData) : Bool :=
  if manifest.length ≠ (manifest.length / 32) * 32 then false
  else verifySegLoop dig manifest segAt (List.range (manifest.length / 32))

/-! ## Callback stores and removeCallback (namespace.py, segment_stream_handler.py) -/

/-- The three callback dictionaries of a Namespace node, represented by
their registered callback IDs in registration order. -/
structure NsCallbackStore where
  onStateChangedCallbacks : List Nat
  onValidateStateChangedCallbacks : List Nat
  onObjectNeededCallbacks : List Nat
deriving Repr, DecidableEq

/-- `Namespace.removeCallback`: pops the ID from
`_onStateChangedCallbacks` and `_onValidateStateChangedCallbacks` only.
The source never pops `_onObjectNeededCallbacks`, although
`addOnObjectNeeded`'s docstring says the returned ID can be used in
`removeCallback()`. -/
def removeCallbackNs (s : NsCallbackStore) (id : Nat) : NsCallbackStore :=
  { s with
    onStateChangedCallbacks := s.onStateChangedCallbacks.erase id,
    onValidateStateChangedCallbacks :=
      s.onValidateStateChangedCallbacks.erase id }

/-- The cleanup in `SegmentStreamHandler._onStateChanged` after reporting
the final segment and the end-of-stream sentinel: set
`_onSegmentCallbacks = {}` and call `namespace.removeCallback` on the
stored `_onObjectNeededId` and `_onStateChangedId`.  Returns the handler's
remaining onSegment callback IDs and the node's callback store. -/
def sshFinishCleanup (onSegmentCallbacks : List Nat) (node : NsCallbackStore)
    (onObjectNeededId onStateChangedId : Nat) : List Nat × NsCallbackStore :=
  let _ := onSegmentCallbacks
  ([], removeCallbackNs (removeCallbackNs node onObjectNeededId)
         onStateChangedId)

/-! ## The Pending Incoming Interest Table (impl/pending_incoming_interest_table.py) -/

/-- One table entry: the Interest's name, the absolute timeout time
(-1 when the Interest lifetime was negative, meaning no timeout), and
whether the attempt to send on this entry's face raises an exception. -/
structure PiiEntry where
  interestName : List Nat
  timeoutTimeMilliseconds : Int
  sendRaises : Bool
deriving Repr, DecidableEq

/-- `Entry.isTimedOut`: `timeoutTime >= 0 and now >= timeoutTime`. -/
def PiiEntry.isTimedOut (e : PiiEntry) (now : Int) : Bool :=
  0 ≤ e.timeoutTimeMilliseconds && e.timeoutTimeMilliseconds ≤ now

/-- The attempt `face.send(data.wireEncode())` inside the try/except of
`satisfyInterests`. -/
def PiiEntry.trySend (e : PiiEntry) : Except String Unit :=
  if e.sendRaises then Except.error "Error calling Face.send" else
    Except.ok ()

/-- `PendingIncomingInterestTable.satisfyInterests`: iterate the table
backwards by index (so the entry at the highest index is processed first
and removal by `pop(i)` is stable); pop each timed-out entry without
sending; for each remaining entry whose Interest matches the data name
(pyndn `Interest.matchesName`, an external predicate passed in as the parameter `matchesName`), send
the Data packet on the entry's face — catching and logging any send
exception — and pop the entry.  Returns the new table and the entries
sent to, in processing order. -/
def satisfyInterests (matchesName : List Nat → List Nat → Bool) (now : Int)
    (dataName : List Nat) : List PiiEntry → List PiiEntry × List PiiEntry
  | [] => ([], [])
  | e :: rest =>
      let r := satisfyInterests matchesName now dataName rest
      if e.isTimedOut now then (r.1, r.2)
      else if matchesName e.interestName dataName then
        match e.trySend with
        | Except.error _ => (r.1, r.2 ++ [e])
        | Except.ok _ => (r.1, r.2 ++ [e])
      else (e :: r.1, r.2)

/-! ## SegmentedObjectHandler.setObject (segmented_object_handler.py) -/

/-- A Python exception as raised by the producer path. -/
inductive PyErr where
  | runtimeError : String → PyErr
  | nameError : String → PyErr
deriving Repr, DecidableEq

/-- The observable outcome of `SegmentedObjectHandler.setObject`: the
segment Data packets created and attached before the method ends, whether
the `_manifest` packet was produced, and the method's result. -/
structure SegSetObjectOutcome where
  segments : List SegData
  manifestCreated : Bool
  result : Except PyErr Unit
deriving Repr

/-- `SegmentedObjectHandler.setObject`: raise RuntimeError when no
KeyChain is configured; otherwise run the two loops (the final-block-ID
loop and the chunking loop, identical to `SegmentStreamHandler.setObject`,
modelled by `setObjectSegments`), create the `_manifest` child when
`useSignatureManifest` is True, and then execute the method's final
statement, which reads the undefined name `nameSpace` (the parameter is
spelled `namespace`) and therefore raises NameError. -/
def segmentedObjectSetObject (keyChain : Option Unit) (L : Nat)
    (obj : List Nat) (useSignatureManifest : Bool) : SegSetObjectOutcome :=
  match keyChain with
  | none =>
      { segments := [], manifestCreated := false,
        result := Except.error (PyErr.runtimeError
          "SegmentedObjectHandler.setObject: There is no KeyChain") }
  | some _ =>
      { segments := setObjectSegments L obj,
        manifestCreated := useSignatureManifest,
        result := Except.error (PyErr.nameError
          "name nameSpace is not defined") }

/-- `GeneralizedObjectHandler.setObject` for a segmented payload: when
`obj.size() > maxSegmentPayloadLength` it sets `hasSegments`, produces the
`_meta` packet, and delegates to
`segmentedObjectHandler.setObject(namespace, obj, True)`. -/
def generalizedObjectSetObject (keyChain : Option Unit) (L : Nat)
    (obj : List Nat) : Except PyErr Unit :=
  if obj.length > L then
    (segmentedObjectSetObject keyChain L obj true).result
  else
    Except.ok ()

/-! ## State-change fan-out (namespace.py _setState and _fireOnStateChanged) -/

/-- The observable behaviour of one application-supplied onStateChanged
listener: the callback IDs it removes via `removeCallback` during its
invocation, and whether it then raises an exception.  The function object
registered under a given callback ID never changes, so a callback store is
its ID list (in registration order, as Python dicts preserve insertion
order) together with a fixed ID-to-behaviour assignment. -/
structure CbSpec where
  removes : List Nat
  raises : Bool

/-- The body of `_fireOnStateChanged`: iterate over a snapshot of the
callback keys (`list(self._onStateChangedCallbacks.keys())`), skip IDs
that are no longer in the dictionary (`if id in ...`), invoke the callback
inside try/except — logging an exception but continuing — and apply the
removals the callback performed.  Returns the invoked IDs in order and the
final ID store. -/
def fireLoop (cbOf : Nat → CbSpec) : List Nat → List Nat →
    List Nat × List Nat
  | [], store => ([], store)
  | cid :: rest, store =>
      if cid ∈ store then
        let store' :=
          store.filter (fun k => !((cbOf cid).removes.contains k))
        let r := fireLoop cbOf rest store'
        match (if (cbOf cid).raises then
            Except.error "Error in onStateChanged" else Except.ok ()) with
        | Except.error _ => (cid :: r.1, r.2)
        | Except.ok _ => (cid :: r.1, r.2)
      else fireLoop cbOf rest store

/-- `Namespace._fireOnStateChanged` on one node: snapshot the key list,
then run the loop against the live store. -/
def fireOnStateChanged (cbOf : Nat → CbSpec) (store : List Nat) :
    List Nat × List Nat :=
  fireLoop cbOf store store

/-- The listener registrations of one node of the ancestor chain. -/
structure NodeListeners where
  cbOf : Nat → CbSpec
  ids : List Nat

/-- `Namespace._setState`: after assigning the state, walk from the
changed node up through every ancestor and run `_fireOnStateChanged` on
each; each node's fan-out is independent of the others. -/
def setStateFanout (chain : List NodeListeners) : List (List Nat) :=
  chain.map (fun nd => (fireOnStateChanged nd.cbOf nd.ids).1)

/-! ## Segment ordering (segment_stream_handler.py _onStateChanged) -/

/-- The state of a `SegmentStreamHandler` consuming segments, together
with the stream of values it has fired: `recv` is the set of segment
numbers whose nodes already hold their object (OBJECT_READY), `next` is
`_maxReportedSegmentNumber + 1` (the source initializes
`_maxReportedSegmentNumber = -1`, so `next` starts at 0), `done` records
that the final segment was reported, the end-of-stream sentinel fired and
the handler's callbacks were removed, and `out` is the values passed to
`_fireOnSegment` so far (`some k` for segment k, `none` for the
end-of-stream sentinel). -/
structure SSState where
  recv : List Nat
  next : Nat
  done : Bool
  out : List (Option Nat)
deriving Repr, DecidableEq

/-- The reporting loop of `_onStateChanged`: while the node of segment
`next` already has content, fire it and advance; when the reported segment
equals the final segment number `N` (recorded from the response MetaInfo,
which by the claim's hypothesis declares `N` on every response), fire the
end-of-stream sentinel `none`, free the callbacks and return.  `fuel`
bounds the iterations; `N + 1 - next` is always enough since each
iteration advances `next` toward `N`.  Returns the fired values, the new
`next` and whether the stream finished. -/
def reportLoop (N : Nat) (recv : List Nat) :
    Nat → Nat → List (Option Nat) × Nat × Bool
  | next, 0 => ([], next, false)
  | next, fuel + 1 =>
      if next ∈ recv then
        if next = N then ([some next, none], next + 1, true)
        else
          let r := reportLoop N recv (next + 1) fuel
          (some next :: r.1, r.2)
      else ([], next, false)

/-- Processing one OBJECT_READY event for segment `s` (a child one
component below the stream node whose final component is a segment):
record the final segment number from the response MetaInfo (always `N`
here), mark `s` as having content, and run the reporting loop.  When the
handler has already finished, its `_onStateChanged` registration was
removed, so the event is not processed at all. -/
def arrive (N : Nat) (st : SSState) (s : Nat) : SSState :=
  if st.done then st
  else
    let recv2 := s :: st.recv
    let r := reportLoop N recv2 st.next (N + 1 - st.next)
    { recv := recv2, next := r.2.1, done := r.2.2, out := st.out ++ r.1 }

/-- Feed an arrival order of segment OBJECT_READY events to a freshly
attached handler. -/
def runSegmentArrivals (N : Nat) (order : List Nat) : SSState :=
  order.foldl (arrive N) ⟨[], 0, false, []⟩

/-- The handler invariant while segments from `p` (all distinct, all at
most `N`) have arrived: the received set is exactly `p`; everything below
`next` has arrived and `next` itself has not (unless the stream finished);
the stream is finished exactly when `next` passed `N`; and the fired
values are exactly segments `0 .. next - 1` in order, followed by the
sentinel when finished. -/
def InvSS (N : Nat) (p : List Nat) (st : SSState) : Prop :=
  (∀ x, x ∈ st.recv ↔ x ∈ p) ∧
  st.next ≤ N + 1 ∧
  (∀ j, j < st.next → j ∈ p) ∧
  (st.next ≤ N → st.next ∉ p) ∧
  (st.done = true ↔ st.next = N + 1) ∧
  st.out = (List.range st.next).map some ++
    (if st.next = N + 1 then [none] else [])

/-! ## Proofs -/

/-! ### Lemmas about the children dictionary -/

lemma storeChild_self (cs : List (Nat × NsTree)) (c : Nat) (child : NsTree)
    (h : lookupChild cs c = some child) : storeChild cs c child = cs := by
  induction cs with
  | nil => simp [lookupChild] at h
  | cons kt rest ih =>
      obtain ⟨k, u⟩ := kt
      by_cases hk : k = c
      · subst hk
        simp [lookupChild] at h
        simp [storeChild, h]
      · simp [lookupChild, hk] at h
        simp [storeChild, hk, ih h]

lemma lookupChild_storeChild (cs : List (Nat × NsTree)) (c : Nat) (t : NsTree) :
    lookupChild (storeChild cs c t) c = some t := by
  induction cs with
  | nil => simp [storeChild, lookupChild]
  | cons kt rest ih =>
      obtain ⟨k, u⟩ := kt
      by_cases hk : k = c
      · subst hk
        simp [storeChild, lookupChild]
      · simp [storeChild, hk, lookupChild, ih]

lemma lookupPath_nil_empty (x : Nat) (xs : List Nat) :
    lookupPath (NsTree.mk []) (x :: xs) = none := by
  simp [lookupPath, NsTree.children, lookupChild]

lemma getChildFrom_cons_some (t : NsTree) (base : List Nat) (c : Nat)
    (rest : List Nat) (child : NsTree)
    (hc : lookupChild t.children c = some child) :
    getChildFrom t base (c :: rest) =
      (NsTree.mk (storeChild t.children c
          (getChildFrom child (base ++ [c]) rest).1),
       (getChildFrom child (base ++ [c]) rest).2.1,
       (getChildFrom child (base ++ [c]) rest).2.2) := by
  show (match lookupChild t.children c with
      | some child =>
          (NsTree.mk (storeChild t.children c
              (getChildFrom child (base ++ [c]) rest).1),
           (getChildFrom child (base ++ [c]) rest).2.1,
           (getChildFrom child (base ++ [c]) rest).2.2)
      | none =>
          (NsTree.mk (storeChild t.children c
              (getChildFrom (NsTree.mk []) (base ++ [c]) rest).1),
           (getChildFrom (NsTree.mk []) (base ++ [c]) rest).2.1,
           (if rest.isEmpty then [base ++ [c]] else []) ++
             (getChildFrom (NsTree.mk []) (base ++ [c]) rest).2.2)) = _
  rw [hc]

lemma getChildFrom_cons_none (t : NsTree) (base : List Nat) (c : Nat)
    (rest : List Nat) (hc : lookupChild t.children c = none) :
    getChildFrom t base (c :: rest) =
      (NsTree.mk (storeChild t.children c
          (getChildFrom (NsTree.mk []) (base ++ [c]) rest).1),
       (getChildFrom (NsTree.mk []) (base ++ [c]) rest).2.1,
       (if rest.isEmpty then [base ++ [c]] else []) ++
         (getChildFrom (NsTree.mk []) (base ++ [c]) rest).2.2) := by
  show (match lookupChild t.children c with
      | some child =>
          (NsTree.mk (storeChild t.children c
              (getChildFrom child (base ++ [c]) rest).1),
           (getChildFrom child (base ++ [c]) rest).2.1,
           (getChildFrom child (base ++ [c]) rest).2.2)
      | none =>
          (NsTree.mk (storeChild t.children c
              (getChildFrom (NsTree.mk []) (base ++ [c]) rest).1),
           (getChildFrom (NsTree.mk []) (base ++ [c]) rest).2.1,
           (if rest.isEmpty then [base ++ [c]] else []) ++
             (getChildFrom (NsTree.mk []) (base ++ [c]) rest).2.2)) = _
  rw [hc]

/-- When the descendant node already exists, `getChild` returns it and
changes nothing: no node is created and no notification fires. -/
lemma getChildFrom_found :
    ∀ (suffix : List Nat) (t : NsTree) (base : List Nat) (n : NsTree),
      lookupPath t suffix = some n →
      getChildFrom t base suffix = (t, n, []) := by
  intro suffix
  induction suffix with
  | nil =>
      intro t base n h
      simp [lookupPath] at h
      simp [getChildFrom, h]
  | cons c rest ih =>
      intro t base n h
      simp only [lookupPath] at h
      cases hc : lookupChild t.children c with
      | none => rw [hc] at h; simp at h
      | some child =>
          rw [hc] at h
          simp only at h
          have hrec := ih child (base ++ [c]) n h
          rw [getChildFrom_cons_some t base c rest child hc, hrec]
          cases t with
          | mk cs =>
              simp only [NsTree.children] at hc ⊢
              simp [storeChild_self cs c child hc]

/-- When the descendant node does not yet exist, `getChild` creates it
(and any missing intermediate nodes), fires exactly one NAME_EXISTS
notification, for the leaf name only, and the created node is found in the
updated tree. -/
lemma getChildFrom_create :
    ∀ (suffix : List Nat) (t : NsTree) (base : List Nat),
      lookupPath t suffix = none →
      (getChildFrom t base suffix).2.2 = [base ++ suffix] ∧
      lookupPath (getChildFrom t base suffix).1 suffix =
        some (getChildFrom t base suffix).2.1 := by
  intro suffix
  induction suffix with
  | nil =>
      intro t base h
      simp [lookupPath] at h
  | cons c rest ih =>
      intro t base h
      simp only [lookupPath] at h
      cases hc : lookupChild t.children c with
      | some child =>
          rw [hc] at h
          simp only at h
          have hrec := ih child (base ++ [c]) h
          rw [getChildFrom_cons_some t base c rest child hc]
          simp only [lookupPath, NsTree.children, lookupChild_storeChild]
          refine ⟨?_, hrec.2⟩
          rw [hrec.1]
          simp
      | none =>
          rw [getChildFrom_cons_none t base c rest hc]
          cases rest with
          | nil =>
              simp [getChildFrom, lookupPath, NsTree.children,
                    lookupChild_storeChild]
          | cons c2 rest2 =>
              have hrec := ih (NsTree.mk []) (base ++ [c])
                (lookupPath_nil_empty c2 rest2)
              simp only [List.isEmpty_cons, List.nil_append]
              constructor
              · rw [if_neg (by simp)]
                rw [List.nil_append, hrec.1]
                simp
              · simp only [lookupPath, NsTree.children,
                           lookupChild_storeChild]
                exact hrec.2

/-- C4: for every node and every valid descendant name (given by its
component suffix below the node), `getChild` is idempotent: a repeated call
with an equal name returns the identical node and leaves the tree
unchanged and fires nothing; the returned node is the one found at that
name in the updated tree; and the first call fires exactly one NAME_EXISTS
notification, for the leaf name, exactly when the node did not yet exist
(creating intermediate nodes fires no notifications). -/
theorem C4_getChild_idempotent (t : NsTree) (base suffix : List Nat) :
    getChildFrom (getChildFrom t base suffix).1 base suffix =
      ((getChildFrom t base suffix).1, (getChildFrom t base suffix).2.1, []) ∧
    lookupPath (getChildFrom t base suffix).1 suffix =
      some (getChildFrom t base suffix).2.1 ∧
    (getChildFrom t base suffix).2.2 =
      (if (lookupPath t suffix).isSome then [] else [base ++ suffix]) := by
  cases h : lookupPath t suffix with
  | some n =>
      have h1 := getChildFrom_found suffix t base n h
      rw [h1]
      simp [h1, h]
  | none =>
      have h1 := getChildFrom_create suffix t base h
      refine ⟨?_, h1.2, by simp [h, h1.1]⟩
      exact getChildFrom_found suffix _ base _ h1.2

/-- C2: on a node with no attached Data packet, receiving a Data packet
whose name equals the node's name (the `_onData` path, which calls
`setData`) attaches the packet, sets the freshness-expiry bookkeeping from
the packet's freshness period, and the first lifecycle state assigned on
the node is DATA_RECEIVED. -/
theorem C2_onData_freshness_and_state (node : NsNodeRec) (d : DataPkt)
    (now : Int) (h1 : node.data = none) (h2 : d.name = node.name) :
    (node.onData d now).1.data = some d ∧
    (node.onData d now).1.freshnessExpiryTimeMilliseconds =
      (match d.metaInfo.freshnessPeriod with
       | some p => if 0 ≤ p then some (now + p) else none
       | none => none) ∧
    (node.onData d now).2.head? = some NamespaceState.DATA_RECEIVED := by
  have hs : node.setData d now = Except.ok (true,
      { node with data := some d,
                  freshnessExpiryTimeMilliseconds :=
        (match d.metaInfo.freshnessPeriod with
         | some p => if 0 ≤ p then some (now + p) else none
         | none => none) }) := by
    unfold NsNodeRec.setData
    rw [h1, if_pos h2]
  unfold NsNodeRec.onData
  rw [hs]
  exact ⟨rfl, rfl, rfl⟩

theorem C2_onData_witness :
    ({ name := [1, 2], data := none, obj := none,
       state := NamespaceState.NAME_EXISTS,
       validateState := NamespaceValidateState.WAITING_FOR_DATA,
       freshnessExpiryTimeMilliseconds := none } : NsNodeRec).data = none ∧
    (({ name := [1, 2], data := none, obj := none,
        state := NamespaceState.NAME_EXISTS,
        validateState := NamespaceValidateState.WAITING_FOR_DATA,
        freshnessExpiryTimeMilliseconds := none } : NsNodeRec).onData
          ⟨[1, 2], [9, 9, 9], ⟨some 5⟩⟩ 100).1.freshnessExpiryTimeMilliseconds =
      some 105 ∧
    (({ name := [1, 2], data := none, obj := none,
        state := NamespaceState.NAME_EXISTS,
        validateState := NamespaceValidateState.WAITING_FOR_DATA,
        freshnessExpiryTimeMilliseconds := none } : NsNodeRec).onData
          ⟨[1, 2], [9, 9, 9], ⟨some 5⟩⟩ 100).2.head? =
      some NamespaceState.DATA_RECEIVED := by
  have h := C2_onData_freshness_and_state
    { name := [1, 2], data := none, obj := none,
      state := NamespaceState.NAME_EXISTS,
      validateState := NamespaceValidateState.WAITING_FOR_DATA,
      freshnessExpiryTimeMilliseconds := none }
    ⟨[1, 2], [9, 9, 9], ⟨some 5⟩⟩ 100 rfl rfl
  exact ⟨rfl, by rw [h.2.1]; decide, h.2.2⟩

/-- C3: on a node that already has an attached Data packet, `setData`
returns False and leaves the node completely unchanged (attached packet,
freshness bookkeeping and state included), and the receive path fires no
state change at all (no DATA_RECEIVED is re-fired). -/
theorem C3_setData_second_call_noop (node : NsNodeRec) (d0 d : DataPkt)
    (now : Int) (h : node.data = some d0) :
    node.setData d now = Except.ok (false, node) ∧
    node.onData d now = (node, []) := by
  have hs : node.setData d now = Except.ok (false, node) := by
    unfold NsNodeRec.setData
    rw [h]
  refine ⟨hs, ?_⟩
  unfold NsNodeRec.onData
  rw [hs]

theorem C3_setData_witness :
    ({ name := [1, 2], data := some ⟨[1, 2], [7], ⟨none⟩⟩, obj := none,
       state := NamespaceState.DATA_RECEIVED,
       validateState := NamespaceValidateState.VALIDATING,
       freshnessExpiryTimeMilliseconds := some 42 } : NsNodeRec).data =
      some ⟨[1, 2], [7], ⟨none⟩⟩ ∧
    ({ name := [1, 2], data := some ⟨[1, 2], [7], ⟨none⟩⟩, obj := none,
       state := NamespaceState.DATA_RECEIVED,
       validateState := NamespaceValidateState.VALIDATING,
       freshnessExpiryTimeMilliseconds := some 42 } : NsNodeRec).setData
        ⟨[1, 2], [8], ⟨some 9⟩⟩ 500 =
      Except.ok (false,
        { name := [1, 2], data := some ⟨[1, 2], [7], ⟨none⟩⟩, obj := none,
          state := NamespaceState.DATA_RECEIVED,
          validateState := NamespaceValidateState.VALIDATING,
          freshnessExpiryTimeMilliseconds := some 42 }) := by
  have h := C3_setData_second_call_noop
    { name := [1, 2], data := some ⟨[1, 2], [7], ⟨none⟩⟩, obj := none,
      state := NamespaceState.DATA_RECEIVED,
      validateState := NamespaceValidateState.VALIDATING,
      freshnessExpiryTimeMilliseconds := some 42 }
    ⟨[1, 2], [7], ⟨none⟩⟩ ⟨[1, 2], [8], ⟨some 9⟩⟩ 500 rfl
  exact ⟨rfl, h.1⟩

lemma chunksGo_nil (L : Nat) (fuel : Nat) : chunksGo L fuel [] = [] := by
  cases fuel <;> rfl

lemma chunks_nil (L : Nat) : chunks L [] = [] := rfl

lemma chunksGo_fuel (L : Nat) (hL : 1 ≤ L) :
    ∀ (fuel : Nat) (obj : List Nat), obj.length ≤ fuel →
      chunksGo L fuel obj = chunks L obj := by
  intro fuel
  induction fuel using Nat.strong_induction_on with
  | _ fuel ih =>
      intro obj hlen
      cases obj with
      | nil => rw [chunksGo_nil, chunks_nil]
      | cons x xs =>
          cases fuel with
          | zero => simp at hlen
          | succ g =>
              show ((x :: xs).take L) :: chunksGo L g ((x :: xs).drop L) =
                chunks L (x :: xs)
              have hdrop : ((x :: xs).drop L).length ≤ g := by
                simp only [List.length_drop, List.length_cons]
                simp only [List.length_cons] at hlen
                omega
              have h1 : chunksGo L g ((x :: xs).drop L) =
                  chunks L ((x :: xs).drop L) :=
                ih g (Nat.lt_succ_self g) _ hdrop
              have h2 : chunksGo L xs.length ((x :: xs).drop L) =
                  chunks L ((x :: xs).drop L) := by
                refine ih xs.length ?_ _ ?_
                · simp only [List.length_cons] at hlen
                  omega
                · simp only [List.length_drop, List.length_cons]
                  omega
              rw [h1]
              show _ = chunksGo L (x :: xs).length (x :: xs)
              simp only [List.length_cons]
              show _ =
                ((x :: xs).take L) :: chunksGo L xs.length ((x :: xs).drop L)
              rw [h2]

/-- Unfolding step of `chunks` for a nonempty object. -/
lemma chunks_cons (L : Nat) (hL : 1 ≤ L) (x : Nat) (xs : List Nat) :
    chunks L (x :: xs) =
      ((x :: xs).take L) :: chunks L ((x :: xs).drop L) := by
  show chunksGo L (x :: xs).length (x :: xs) = _
  simp only [List.length_cons]
  show ((x :: xs).take L) :: chunksGo L xs.length ((x :: xs).drop L) = _
  rw [chunksGo_fuel L hL xs.length ((x :: xs).drop L)
    (by simp only [List.length_drop, List.length_cons]; omega)]

/-- The chunks concatenate back to the original object. -/
lemma chunks_join (L : Nat) (hL : 1 ≤ L) (obj : List Nat) :
    (chunks L obj).flatten = obj := by
  have H : ∀ (n : Nat) (o : List Nat), o.length ≤ n →
      (chunks L o).flatten = o := by
    intro n
    induction n with
    | zero =>
        intro o h
        have : o = [] := List.length_eq_zero.mp (Nat.le_zero.mp h)
        subst this
        rfl
    | succ n ih =>
        intro o h
        cases o with
        | nil => rfl
        | cons x xs =>
            rw [chunks_cons L hL, List.flatten_cons,
                ih ((x :: xs).drop L)
                  (by simp only [List.length_drop, List.length_cons]
                      simp only [List.length_cons] at h
                      omega)]
            exact List.take_append_drop L (x :: xs)
  exact H obj.length obj le_rfl

lemma chunks_ne_nil_iff (L : Nat) (hL : 1 ≤ L) (obj : List Nat) :
    chunks L obj ≠ [] ↔ obj ≠ [] := by
  cases obj with
  | nil => simp [chunks_nil]
  | cons x xs => simp [chunks_cons L hL]

/-- Every chunk is nonempty and no longer than the maximum payload
length. -/
lemma chunks_mem_length (L : Nat) (hL : 1 ≤ L) (obj : List Nat) :
    ∀ c ∈ chunks L obj, c.length ≤ L ∧ c ≠ [] := by
  have H : ∀ (n : Nat) (o : List Nat), o.length ≤ n →
      ∀ c ∈ chunks L o, c.length ≤ L ∧ c ≠ [] := by
    intro n
    induction n with
    | zero =>
        intro o h
        have : o = [] := List.length_eq_zero.mp (Nat.le_zero.mp h)
        subst this
        simp [chunks_nil]
    | succ n ih =>
        intro o h c hc
        cases o with
        | nil => simp [chunks_nil] at hc
        | cons x xs =>
            rw [chunks_cons L hL] at hc
            rcases List.mem_cons.mp hc with hc | hc
            · subst hc
              constructor
              · simp only [List.length_take]
                omega
              · intro hnil
                have hlen0 := congrArg List.length hnil
                simp only [List.length_take, List.length_cons,
                           List.length_nil] at hlen0
                omega
            · exact ih ((x :: xs).drop L)
                (by simp only [List.length_drop, List.length_cons]
                    simp only [List.length_cons] at h
                    omega) c hc
  exact H obj.length obj le_rfl

/-- Every chunk except the last has exactly the maximum payload length. -/
lemma chunks_dropLast_length (L : Nat) (hL : 1 ≤ L) (obj : List Nat) :
    ∀ c ∈ (chunks L obj).dropLast, c.length = L := by
  have H : ∀ (n : Nat) (o : List Nat), o.length ≤ n →
      ∀ c ∈ (chunks L o).dropLast, c.length = L := by
    intro n
    induction n with
    | zero =>
        intro o h
        have : o = [] := List.length_eq_zero.mp (Nat.le_zero.mp h)
        subst this
        simp [chunks_nil]
    | succ n ih =>
        intro o h c hc
        cases o with
        | nil => simp [chunks_nil] at hc
        | cons x xs =>
            rw [chunks_cons L hL] at hc
            cases hrest : chunks L ((x :: xs).drop L) with
            | nil => rw [hrest] at hc; simp at hc
            | cons c2 cs2 =>
                rw [hrest] at hc
                rw [show (List.take L (x :: xs) :: c2 :: cs2).dropLast =
                      List.take L (x :: xs) :: (c2 :: cs2).dropLast from rfl,
                    List.mem_cons] at hc
                have hdne : (x :: xs).drop L ≠ [] := by
                  intro hd
                  rw [hd, chunks_nil] at hrest
                  exact List.noConfusion hrest
                have hlong : L < (x :: xs).length := by
                  by_contra hcon
                  exact hdne (List.drop_eq_nil_of_le (Nat.le_of_not_lt hcon))
                rcases hc with hc | hc
                · subst hc
                  simp only [List.length_take]
                  omega
                · rw [← hrest] at hc
                  exact ih ((x :: xs).drop L)
                    (by simp only [List.length_drop, List.length_cons]
                        simp only [List.length_cons] at h
                        omega) c hc
  exact H obj.length obj le_rfl

lemma setObjectSegments_map_content (L : Nat) (obj : List Nat) :
    (setObjectSegments L obj).map SegData.content = chunks L obj := by
  unfold setObjectSegments
  rw [List.map_map]
  have h : (SegData.content ∘ fun p : Nat × List Nat =>
      SegData.mk p.1 p.2 (finalSegmentNum L obj)) = Prod.snd := rfl
  rw [h, List.enum_map_snd]

lemma setObjectSegments_length (L : Nat) (obj : List Nat) :
    (setObjectSegments L obj).length = (chunks L obj).length := by
  unfold setObjectSegments
  rw [List.length_map, List.enum_length]

/-- C5 counterexample: for an empty object the `setObject` segmentation
loop never runs (`while offset < obj.size()` fails immediately with
`obj.size() = 0`), so zero segment packets are produced, not one empty
final segment as the claim states. -/
theorem C5_empty_object_counterexample :
    setObjectSegments 8192 [] = [] ∧
    ¬ (setObjectSegments 8192 []).length = 1 := by
  constructor
  · rfl
  · intro h
    simp [setObjectSegments, chunks_nil] at h

/-- C5 amended: for every object and every `maxSegmentPayloadLength L ≥ 1`,
`setObject` splits the object into chunks of length `L` (the last chunk
possibly shorter, every chunk nonempty) whose concatenation is the object,
numbers the segments 0, 1, ..., and sets the final-block marker to the
final segment number on every chunk; but an empty object produces no
segments at all (the claim's "one empty final segment" does not happen). -/
theorem C5_setObject_chunking (L : Nat) (obj : List Nat) (hL : 1 ≤ L) :
    ((setObjectSegments L obj).map SegData.content).flatten = obj ∧
    (∀ sd ∈ setObjectSegments L obj,
        sd.finalBlockId = finalSegmentNum L obj ∧
        sd.content.length ≤ L ∧ sd.content ≠ []) ∧
    (∀ c ∈ ((setObjectSegments L obj).map SegData.content).dropLast,
        c.length = L) ∧
    (setObjectSegments L obj).map SegData.segment =
      List.range (setObjectSegments L obj).length ∧
    (obj = [] → setObjectSegments L obj = []) ∧
    (obj ≠ [] →
        (setObjectSegments L obj).length = finalSegmentNum L obj + 1) := by
  refine ⟨?_, ?_, ?_, ?_, ?_, ?_⟩
  · rw [setObjectSegments_map_content]
    exact chunks_join L hL obj
  · intro sd hsd
    unfold setObjectSegments at hsd
    rcases List.mem_map.mp hsd with ⟨p, hp, hsd⟩
    subst hsd
    have hmem : p.2 ∈ chunks L obj := by
      rw [← List.enum_map_snd (chunks L obj)]
      exact List.mem_map.mpr ⟨p, hp, rfl⟩
    exact ⟨rfl, (chunks_mem_length L hL obj p.2 hmem).1,
           (chunks_mem_length L hL obj p.2 hmem).2⟩
  · rw [setObjectSegments_map_content]
    exact chunks_dropLast_length L hL obj
  · unfold setObjectSegments
    rw [List.map_map, List.length_map, List.enum_length]
    have h : (SegData.segment ∘ fun p : Nat × List Nat =>
        SegData.mk p.1 p.2 (finalSegmentNum L obj)) = Prod.fst := rfl
    rw [h, List.enum_map_fst]
  · intro hobj
    subst hobj
    rfl
  · intro hobj
    rw [setObjectSegments_length]
    unfold finalSegmentNum
    have hne : chunks L obj ≠ [] := (chunks_ne_nil_iff L hL obj).mpr hobj
    have : 0 < (chunks L obj).length := List.length_pos.mpr hne
    omega

theorem C5_setObject_chunking_witness :
    1 ≤ 4 ∧
    (((setObjectSegments 4 [0, 1, 2, 3, 4, 5, 6, 7, 8]).map
        SegData.content).flatten = [0, 1, 2, 3, 4, 5, 6, 7, 8] ∧
     (∀ sd ∈ setObjectSegments 4 [0, 1, 2, 3, 4, 5, 6, 7, 8],
         sd.finalBlockId = finalSegmentNum 4 [0, 1, 2, 3, 4, 5, 6, 7, 8] ∧
         sd.content.length ≤ 4 ∧ sd.content ≠ []) ∧
     (∀ c ∈ ((setObjectSegments 4 [0, 1, 2, 3, 4, 5, 6, 7, 8]).map
         SegData.content).dropLast, c.length = 4) ∧
     (setObjectSegments 4 [0, 1, 2, 3, 4, 5, 6, 7, 8]).map SegData.segment =
       List.range (setObjectSegments 4 [0, 1, 2, 3, 4, 5, 6, 7, 8]).length ∧
     ([0, 1, 2, 3, 4, 5, 6, 7, 8] = ([] : List Nat) →
       setObjectSegments 4 [0, 1, 2, 3, 4, 5, 6, 7, 8] = []) ∧
     (([0, 1, 2, 3, 4, 5, 6, 7, 8] : List Nat) ≠ [] →
       (setObjectSegments 4 [0, 1, 2, 3, 4, 5, 6, 7, 8]).length =
         finalSegmentNum 4 [0, 1, 2, 3, 4, 5, 6, 7, 8] + 1)) :=
  ⟨by decide, C5_setObject_chunking 4 [0, 1, 2, 3, 4, 5, 6, 7, 8] (by decide)⟩

lemma verifySegLoop_eq_true (dig : SegData → List Nat) (manifest : List Nat)
    (segAt : Nat → SegData) :
    ∀ l : List Nat, verifySegLoop dig manifest segAt l = true ↔
      ∀ s ∈ l, (dig (segAt s)).length = 32 ∧
        ∀ i < 32, (dig (segAt s)).getD i 0 = manifest.getD (32 * s + i) 0 := by
  intro l
  induction l with
  | nil => simp [verifySegLoop]
  | cons s rest ih =>
      unfold verifySegLoop
      by_cases hlen : (dig (segAt s)).length = 32
      · rw [if_neg (by simp [hlen])]
        by_cases hall : (List.range 32).all
            (fun i => (dig (segAt s)).getD i 0 ==
              manifest.getD (32 * s + i) 0) = true
        · rw [if_pos hall, ih]
          simp only [List.all_eq_true, List.mem_range, beq_iff_eq] at hall
          simp only [List.mem_cons]
          constructor
          · intro h
            intro t ht
            rcases ht with ht | ht
            · subst ht
              exact ⟨hlen, hall⟩
            · exact h t ht
          · intro h t ht
            exact h t (Or.inr ht)
        · rw [if_neg hall]
          simp only [List.all_eq_true, List.mem_range, beq_iff_eq] at hall
          push_neg at hall
          rcases hall with ⟨i, hi, hne⟩
          constructor
          · intro h
            exact absurd h (by simp)
          · intro h
            exact absurd ((h s (List.mem_cons_self s rest)).2 i hi) hne
      · rw [if_pos (by simp [hlen])]
        constructor
        · intro h
          exact absurd h (by simp)
        · intro h
          exact absurd (h s (List.mem_cons_self s rest)).1 hlen

/-- Characterization of `verifyWithManifest`: it returns True exactly when
the manifest length is a multiple of 32 and, for every covered segment
number, the recomputed digest has length 32 and agrees byte-for-byte with
the manifest. -/
lemma verifyWithManifest_eq_true_iff (dig : SegData → List Nat)
    (manifest : List Nat) (segAt : Nat → SegData) :
    verifyWithManifest dig manifest segAt = true ↔
      (manifest.length % 32 = 0 ∧
       ∀ s < manifest.length / 32, (dig (segAt s)).length = 32 ∧
         ∀ i < 32,
           (dig (segAt s)).getD i 0 = manifest.getD (32 * s + i) 0) := by
  unfold verifyWithManifest
  by_cases hm : manifest.length = (manifest.length / 32) * 32
  · rw [if_neg (fun hcon => hcon hm)]
    rw [verifySegLoop_eq_true]
    have hmod : manifest.length % 32 = 0 := by omega
    constructor
    · intro h
      refine ⟨hmod, ?_⟩
      intro s hs
      exact h s (List.mem_range.mpr hs)
    · intro h s hs
      exact h.2 s (List.mem_range.mp hs)
  · rw [if_pos hm]
    have hmod : ¬ manifest.length % 32 = 0 := by omega
    constructor
    · intro h
      exact Bool.noConfusion h
    · intro h
      exact absurd h.1 hmod

lemma manifestContentOf_ne_nil (dig : SegData → List Nat)
    (segs : List SegData) (hne : segs ≠ []) :
    manifestContentOf dig segs = (segs.map dig).flatten := by
  unfold manifestContentOf
  rw [if_neg (by simpa using hne)]

lemma flattenDigests_length (dig : SegData → List Nat) :
    ∀ segs : List SegData, (∀ p ∈ segs, (dig p).length = 32) →
      ((segs.map dig).flatten).length = 32 * segs.length := by
  intro segs
  induction segs with
  | nil => intro h32; rfl
  | cons p rest ih =>
      intro h32
      have hp : (dig p).length = 32 := h32 p (List.mem_cons_self p rest)
      have hrest := ih (fun q hq => h32 q (List.mem_cons_of_mem p hq))
      simp only [List.map_cons, List.flatten_cons, List.length_append,
                 List.length_cons]
      rw [hp, hrest]
      ring

lemma manifestContentOf_length (dig : SegData → List Nat)
    (segs : List SegData) (hne : segs ≠ [])
    (h32 : ∀ p ∈ segs, (dig p).length = 32) :
    (manifestContentOf dig segs).length = 32 * segs.length := by
  rw [manifestContentOf_ne_nil dig segs hne]
  exact flattenDigests_length dig segs h32

lemma flatten_getD32 (ds : List (List Nat))
    (h32 : ∀ d ∈ ds, d.length = 32) :
    ∀ s, s < ds.length → ∀ i, i < 32 →
      ds.flatten.getD (32 * s + i) 0 = (ds.getD s []).getD i 0 := by
  induction ds with
  | nil => intro s hs; simp at hs
  | cons d rest ih =>
      intro s hs i hi
      cases s with
      | zero =>
          simp only [List.flatten_cons, Nat.mul_zero, Nat.zero_add]
          have hd : i < d.length := by
            rw [h32 d (List.mem_cons_self d rest)]
            exact hi
          rw [List.getD_append d rest.flatten 0 i hd]
          rfl
      | succ s2 =>
          simp only [List.flatten_cons]
          have hdlen : d.length = 32 := h32 d (List.mem_cons_self d rest)
          have hge : d.length ≤ 32 * (s2 + 1) + i := by omega
          rw [List.getD_append_right d rest.flatten 0 _ hge]
          have hidx : 32 * (s2 + 1) + i - d.length = 32 * s2 + i := by omega
          rw [hidx,
              ih (fun q hq => h32 q (List.mem_cons_of_mem d hq)) s2
                (by simp only [List.length_cons] at hs; omega) i hi]
          rfl

lemma getD_map_dig (dig : SegData → List Nat) (segs : List SegData) :
    ∀ s, s < segs.length →
      (segs.map dig).getD s [] = dig (segs.getD s default) := by
  induction segs with
  | nil => intro s hs; simp at hs
  | cons p rest ih =>
      intro s hs
      cases s with
      | zero => rfl
      | succ s2 =>
          simp only [List.map_cons, List.getD_cons_succ]
          exact ih s2 (by simp only [List.length_cons] at hs; omega)

/-- On an unmodified manifest and nonempty segment set (every recomputed
digest is the stored one and digests are 32 bytes), verification
succeeds. -/
lemma verifyWithManifest_production (dig : SegData → List Nat)
    (segs : List SegData) (hne : segs ≠ [])
    (h32 : ∀ p ∈ segs, (dig p).length = 32) :
    verifyWithManifest dig (manifestContentOf dig segs)
      (fun s => segs.getD s default) = true := by
  rw [verifyWithManifest_eq_true_iff]
  have hlen := manifestContentOf_length dig segs hne h32
  constructor
  · rw [hlen]
    omega
  · intro s hs
    rw [hlen] at hs
    have hs2 : s < segs.length := by omega
    constructor
    · refine h32 _ ?_
      rw [List.getD_eq_getElem segs default hs2]
      exact List.getElem_mem hs2
    · intro i hi
      show (dig (segs.getD s default)).getD i 0 =
        (manifestContentOf dig segs).getD (32 * s + i) 0
      rw [manifestContentOf_ne_nil dig segs hne]
      rw [flatten_getD32 (segs.map dig)
            (by intro d hd
                rcases List.mem_map.mp hd with ⟨q, hq, hdq⟩
                subst hdq
                exact h32 q hq)
            s (by simp only [List.length_map]; omega) i hi,
          getD_map_dig dig segs s hs2]

/-- C6: `verifyWithManifest` returns True for an unmodified manifest and
segments as produced by `setObject(..., useSignatureManifest=True)` on a
nonempty object (assuming, as for SHA-256, that every recomputed implicit
digest is 32 bytes), and returns False whenever the manifest length is not
a multiple of the 32-byte digest size, or some covered segment's
recomputed digest does not have length 32, or some byte of some covered
segment's digest differs from the corresponding manifest byte.  The
empty-object production is excluded: there `setObject` creates the
32-zero-byte `_manifest` but no segment children, so the source's
`verifyWithManifest` reads `nSegments = 1` and raises AttributeError at
segment 0 (`segmentNamespace.getData()` is None) instead of returning. -/
theorem C6_verifyWithManifest_integrity (dig : SegData → List Nat) :
    (∀ (L : Nat) (obj : List Nat), 1 ≤ L → obj ≠ [] →
       (∀ p ∈ setObjectSegments L obj, (dig p).length = 32) →
       verifyWithManifest dig
         (manifestContentOf dig (setObjectSegments L obj))
         (fun s => (setObjectSegments L obj).getD s default) = true) ∧
    (∀ (manifest : List Nat) (segAt : Nat → SegData),
       manifest.length % 32 ≠ 0 →
       verifyWithManifest dig manifest segAt = false) ∧
    (∀ (manifest : List Nat) (segAt : Nat → SegData) (s : Nat),
       s < manifest.length / 32 → (dig (segAt s)).length ≠ 32 →
       verifyWithManifest dig manifest segAt = false) ∧
    (∀ (manifest : List Nat) (segAt : Nat → SegData) (s i : Nat),
       s < manifest.length / 32 → i < 32 →
       (dig (segAt s)).getD i 0 ≠ manifest.getD (32 * s + i) 0 →
       verifyWithManifest dig manifest segAt = false) := by
  refine ⟨?_, ?_, ?_, ?_⟩
  · intro L obj hL hobj h32
    have hsegne : setObjectSegments L obj ≠ [] := by
      intro hnil
      have h1 := congrArg List.length hnil
      rw [setObjectSegments_length] at h1
      exact (chunks_ne_nil_iff L hL obj).mpr hobj (List.length_eq_zero.mp h1)
    exact verifyWithManifest_production dig (setObjectSegments L obj)
      hsegne h32
  · intro manifest segAt hmod
    cases hv : verifyWithManifest dig manifest segAt with
    | false => rfl
    | true =>
        exact absurd ((verifyWithManifest_eq_true_iff dig manifest
          segAt).mp hv).1 hmod
  · intro manifest segAt s hs hlen
    cases hv : verifyWithManifest dig manifest segAt with
    | false => rfl
    | true =>
        exact absurd (((verifyWithManifest_eq_true_iff dig manifest
          segAt).mp hv).2 s hs).1 hlen
  · intro manifest segAt s i hs hi hne
    cases hv : verifyWithManifest dig manifest segAt with
    | false => rfl
    | true =>
        exact absurd ((((verifyWithManifest_eq_true_iff dig manifest
          segAt).mp hv).2 s hs).2 i hi) hne

theorem C6_verifyWithManifest_witness :
    (1 ≤ 2 ∧ ([1, 2, 3] : List Nat) ≠ [] ∧
     ∀ p ∈ setObjectSegments 2 [1, 2, 3],
       ((fun q : SegData => (q.content ++ List.replicate 32 0).take 32)
         p).length = 32) ∧
    verifyWithManifest
      (fun q : SegData => (q.content ++ List.replicate 32 0).take 32)
      (manifestContentOf
        (fun q : SegData => (q.content ++ List.replicate 32 0).take 32)
        (setObjectSegments 2 [1, 2, 3]))
      (fun s => (setObjectSegments 2 [1, 2, 3]).getD s default) = true :=
  ⟨⟨by decide, by decide, by decide⟩,
   (C6_verifyWithManifest_integrity
     (fun q : SegData => (q.content ++ List.replicate 32 0).take 32)).1
     2 [1, 2, 3] (by decide) (by decide) (by decide)⟩

/-- C7 (code bug): after the end-of-stream cleanup, the handler's
onSegment callbacks are emptied and its onStateChanged registration is
removed from the node, but its onObjectNeeded registration is NOT removed:
`Namespace.removeCallback` does not pop `_onObjectNeededCallbacks`, so a
registration of this handler remains on the node, contradicting the claim
(and the `addOnObjectNeeded` docstring, which says its callback ID can be
used with `removeCallback`).  Concrete run: the handler registered
onObjectNeeded ID 6 and onStateChanged ID 7 on a node, with one onSegment
callback ID 5. -/
theorem C7_cleanup_leaves_onObjectNeeded_registered :
    (sshFinishCleanup [5] ⟨[7], [], [6]⟩ 6 7).1 = [] ∧
    (sshFinishCleanup [5] ⟨[7], [], [6]⟩ 6 7).2.onStateChangedCallbacks
      = [] ∧
    (sshFinishCleanup [5] ⟨[7], [], [6]⟩ 6 7).2.onObjectNeededCallbacks
      = [6] ∧
    ¬ (sshFinishCleanup [5] ⟨[7], [], [6]⟩ 6 7).2.onObjectNeededCallbacks
      = [] := by
  refine ⟨rfl, by decide, rfl, by decide⟩

/-- C8: `satisfyInterests` always returns (send failures are caught, never
propagated); the resulting table keeps exactly the entries that are
neither timed out nor matching (timed-out entries are dropped without a
send, matched entries are removed even when their send raised); and the
entries sent to are exactly the non-timed-out matching entries, each
exactly once, in the backwards processing order. -/
theorem C8_satisfyInterests_spec (matchesName : List Nat → List Nat → Bool)
    (now : Int) (dataName : List Nat) (table : List PiiEntry) :
    (satisfyInterests matchesName now dataName table).1 =
      table.filter
        (fun e => !(e.isTimedOut now) && !(matchesName e.interestName dataName)) ∧
    (satisfyInterests matchesName now dataName table).2 =
      (table.filter
        (fun e => !(e.isTimedOut now) &&
          matchesName e.interestName dataName)).reverse := by
  induction table with
  | nil => exact ⟨rfl, rfl⟩
  | cons e rest ih =>
      unfold satisfyInterests
      by_cases ht : e.isTimedOut now
      · rw [if_pos ht]
        simp only [List.filter_cons, ht, Bool.not_true, Bool.false_and,
                   Bool.and_self]
        exact ⟨ih.1, by rw [ih.2]; simp⟩
      · rw [if_neg ht]
        by_cases hm : matchesName e.interestName dataName
        · rw [if_pos hm]
          have hsend : (match e.trySend with
              | Except.error _ =>
                  ((satisfyInterests matchesName now dataName rest).1,
                   (satisfyInterests matchesName now dataName rest).2 ++ [e])
              | Except.ok _ =>
                  ((satisfyInterests matchesName now dataName rest).1,
                   (satisfyInterests matchesName now dataName rest).2 ++ [e])) =
              ((satisfyInterests matchesName now dataName rest).1,
               (satisfyInterests matchesName now dataName rest).2 ++ [e]) := by
            cases e.trySend <;> rfl
          rw [hsend]
          constructor
          · simp only [List.filter_cons, eq_false_of_ne_true
              (by simp [ht] : ¬ e.isTimedOut now = true)]
            simp only [hm, Bool.not_false, Bool.true_and, Bool.not_true,
                       Bool.and_false]
            exact ih.1
          · simp only [List.filter_cons]
            have : (!(e.isTimedOut now) &&
                matchesName e.interestName dataName) = true := by
              simp [ht, hm]
            rw [this, ih.2]
            simp
        · rw [if_neg hm]
          constructor
          · simp only [List.filter_cons]
            have : (!(e.isTimedOut now) &&
                !(matchesName e.interestName dataName)) = true := by
              simp [ht, hm]
            rw [this, ih.1]
            simp
          · simp only [List.filter_cons]
            have : (!(e.isTimedOut now) &&
                matchesName e.interestName dataName) = false := by
              simp [ht, hm]
            rw [this, ih.2]
            simp

/-- C10: with a KeyChain configured, `SegmentedObjectHandler.setObject`
never returns normally: after creating all segment packets (and the
`_manifest` when requested) its final statement references the undefined
name `nameSpace` and raises NameError; consequently the
`GeneralizedObjectHandler.setObject` producer path for segmented payloads
(`obj.size() > maxSegmentPayloadLength`) also ends in that NameError. -/
theorem C10_segmented_setObject_raises_NameError (kc : Option Unit)
    (L : Nat) (obj : List Nat) (useSignatureManifest : Bool)
    (hkc : kc = some ()) (hL : 1 ≤ L) (hobj : obj ≠ []) :
    (segmentedObjectSetObject kc L obj useSignatureManifest).result =
      Except.error (PyErr.nameError "name nameSpace is not defined") ∧
    (segmentedObjectSetObject kc L obj useSignatureManifest).segments =
      setObjectSegments L obj ∧
    (segmentedObjectSetObject kc L obj useSignatureManifest).segments
      ≠ [] ∧
    (segmentedObjectSetObject kc L obj
      useSignatureManifest).manifestCreated = useSignatureManifest ∧
    (obj.length > L → generalizedObjectSetObject kc L obj =
      Except.error (PyErr.nameError "name nameSpace is not defined")) := by
  subst hkc
  refine ⟨rfl, rfl, ?_, rfl, ?_⟩
  · show setObjectSegments L obj ≠ []
    intro hnil
    have h1 := congrArg List.length hnil
    rw [setObjectSegments_length] at h1
    exact (chunks_ne_nil_iff L hL obj).mpr hobj (List.length_eq_zero.mp h1)
  · intro hseg
    unfold generalizedObjectSetObject
    rw [if_pos hseg]
    rfl

theorem C10_segmented_setObject_witness :
    ((some () : Option Unit) = some () ∧ 1 ≤ 2 ∧ ([7, 8, 9] : List Nat) ≠ []) ∧
    (segmentedObjectSetObject (some ()) 2 [7, 8, 9] true).result =
      Except.error (PyErr.nameError "name nameSpace is not defined") ∧
    generalizedObjectSetObject (some ()) 2 [7, 8, 9] =
      Except.error (PyErr.nameError "name nameSpace is not defined") :=
  ⟨⟨rfl, by decide, by decide⟩,
   (C10_segmented_setObject_raises_NameError (some ()) 2 [7, 8, 9] true
      rfl (by decide) (by decide)).1,
   (C10_segmented_setObject_raises_NameError (some ()) 2 [7, 8, 9] true
      rfl (by decide) (by decide)).2.2.2.2 (by decide)⟩

lemma fireLoop_sublist (cbOf : Nat → CbSpec) :
    ∀ (ids store : List Nat), (fireLoop cbOf ids store).1.Sublist ids := by
  intro ids
  induction ids with
  | nil => intro store; exact List.Sublist.refl []
  | cons cid rest ih =>
      intro store
      unfold fireLoop
      by_cases hc : cid ∈ store
      · rw [if_pos hc]
        cases hr : (if (cbOf cid).raises then
            Except.error "Error in onStateChanged" else Except.ok ()) with
        | error e =>
            exact List.Sublist.cons₂ cid (ih _)
        | ok u =>
            exact List.Sublist.cons₂ cid (ih _)
      · rw [if_neg hc]
        exact List.Sublist.cons cid (ih store)

lemma fireLoop_not_mem (cbOf : Nat → CbSpec) :
    ∀ (ids store : List Nat) (j : Nat), j ∉ store →
      j ∉ (fireLoop cbOf ids store).1 := by
  intro ids
  induction ids with
  | nil => intro store j hj; simp [fireLoop]
  | cons cid rest ih =>
      intro store j hj
      unfold fireLoop
      by_cases hc : cid ∈ store
      · rw [if_pos hc]
        have hj2 : j ∉ store.filter
            (fun k => !((cbOf cid).removes.contains k)) := by
          intro hmem
          exact hj (List.mem_of_mem_filter hmem)
        have hne : j ≠ cid := by
          intro h
          rw [h] at hj
          exact hj hc
        cases hr : (if (cbOf cid).raises then
            Except.error "Error in onStateChanged" else Except.ok ()) with
        | error e =>
            intro hmem
            rcases List.mem_cons.mp hmem with h | h
            · exact hne h
            · exact ih _ j hj2 h
        | ok u =>
            intro hmem
            rcases List.mem_cons.mp hmem with h | h
            · exact hne h
            · exact ih _ j hj2 h
      · rw [if_neg hc]
        exact ih store j hj

/-- A one-step unfolding of `fireLoop` at a present ID, independent of
whether the callback raises (the except clause swallows the error). -/
lemma fireLoop_cons_mem (cbOf : Nat → CbSpec) (cid : Nat)
    (rest store : List Nat) (hc : cid ∈ store) :
    fireLoop cbOf (cid :: rest) store =
      (cid :: (fireLoop cbOf rest
        (store.filter (fun k => !((cbOf cid).removes.contains k)))).1,
       (fireLoop cbOf rest
        (store.filter (fun k => !((cbOf cid).removes.contains k)))).2) := by
  conv_lhs => unfold fireLoop
  rw [if_pos hc]
  by_cases hraise : (cbOf cid).raises = true
  · rw [if_pos hraise]
  · rw [if_neg hraise]

/-- A listener that an earlier-invoked listener removed is not invoked
after its removal. -/
lemma fireLoop_removal (cbOf : Nat → CbSpec) :
    ∀ (l1 : List Nat) (i : Nat) (l2 : List Nat) (store : List Nat) (j : Nat),
      (l1 ++ i :: l2).Nodup → j ∈ l2 →
      i ∈ (fireLoop cbOf (l1 ++ i :: l2) store).1 →
      j ∈ (cbOf i).removes →
      j ∉ (fireLoop cbOf (l1 ++ i :: l2) store).1 := by
  intro l1
  induction l1 with
  | nil =>
      intro i l2 store j hnd hj hi hrem
      simp only [List.nil_append] at hnd hi ⊢
      by_cases hc : i ∈ store
      · rw [fireLoop_cons_mem cbOf i l2 store hc] at hi ⊢
        have hji : j ≠ i := by
          intro h
          subst h
          exact (List.nodup_cons.mp hnd).1 hj
        intro hmem
        rcases List.mem_cons.mp hmem with h | h
        · exact hji h
        · have hjs : j ∉ store.filter
              (fun k => !((cbOf i).removes.contains k)) := by
            intro hmem2
            have h2 := (List.mem_filter.mp hmem2).2
            simp at h2
            exact h2 hrem
          exact fireLoop_not_mem cbOf l2 _ j hjs h
      · unfold fireLoop at hi
        rw [if_neg hc] at hi
        have hmem : i ∈ l2 := (fireLoop_sublist cbOf l2 store).subset hi
        exact absurd hmem (List.nodup_cons.mp hnd).1
  | cons a l1x ih =>
      intro i l2 store j hnd hj hi hrem
      simp only [List.cons_append] at hnd hi ⊢
      have hnd2 : (l1x ++ i :: l2).Nodup := (List.nodup_cons.mp hnd).2
      have hanotin : a ∉ l1x ++ i :: l2 := (List.nodup_cons.mp hnd).1
      by_cases hc : a ∈ store
      · rw [fireLoop_cons_mem cbOf a _ store hc] at hi ⊢
        have hia : i ≠ a := by
          intro h
          subst h
          exact hanotin (List.mem_append_right l1x (List.mem_cons_self i l2))
        have hja : j ≠ a := by
          intro h
          subst h
          exact hanotin
            (List.mem_append_right l1x (List.mem_cons_of_mem i hj))
        rcases List.mem_cons.mp hi with h | h
        · exact absurd h hia
        · intro hmem
          rcases List.mem_cons.mp hmem with h2 | h2
          · exact hja h2
          · exact ih i l2 _ j hnd2 hj h hrem h2
      · unfold fireLoop at hi ⊢
        rw [if_neg hc] at hi ⊢
        exact ih i l2 store j hnd2 hj hi hrem

/-- The fan-out result does not depend on which listeners raise: an
exception in a listener body is caught at the fan-out boundary and the
remaining listeners are still invoked. -/
lemma fireLoop_raises_independent (cbOf cbOf2 : Nat → CbSpec)
    (hagree : ∀ cid, (cbOf cid).removes = (cbOf2 cid).removes) :
    ∀ (ids store : List Nat),
      fireLoop cbOf ids store = fireLoop cbOf2 ids store := by
  intro ids
  induction ids with
  | nil => intro store; rfl
  | cons cid rest ih =>
      intro store
      by_cases hc : cid ∈ store
      · rw [fireLoop_cons_mem cbOf cid rest store hc,
            fireLoop_cons_mem cbOf2 cid rest store hc, hagree cid, ih]
      · unfold fireLoop
        rw [if_neg hc, if_neg hc]
        exact ih store

/-- C9: during a state-change fan-out at a node: the invoked listeners
are a subsequence of the snapshotted registration-order key list (each
listener invoked at most once, in registration order); a listener removed
by an earlier-invoked listener is not invoked after its removal; the
fan-out outcome is independent of which listener bodies raise (exceptions
are caught and logged at the fan-out boundary); and `_setState` runs the
fan-out at the changed node and at every ancestor in the chain. -/
theorem C9_stateChange_fanout (cbOf cbOf2 : Nat → CbSpec)
    (store : List Nat) (chain : List NodeListeners) :
    (fireOnStateChanged cbOf store).1.Sublist store ∧
    (∀ (l1 : List Nat) (i : Nat) (l2 : List Nat) (j : Nat),
        store = l1 ++ i :: l2 → store.Nodup → j ∈ l2 →
        i ∈ (fireOnStateChanged cbOf store).1 → j ∈ (cbOf i).removes →
        j ∉ (fireOnStateChanged cbOf store).1) ∧
    ((∀ cid, (cbOf cid).removes = (cbOf2 cid).removes) →
        fireOnStateChanged cbOf store = fireOnStateChanged cbOf2 store) ∧
    (setStateFanout chain).length = chain.length ∧
    (∀ nd ∈ chain,
        (fireOnStateChanged nd.cbOf nd.ids).1 ∈ setStateFanout chain) := by
  refine ⟨fireLoop_sublist cbOf store store, ?_, ?_, ?_, ?_⟩
  · intro l1 i l2 j hdec hnd hj hi hrem
    subst hdec
    exact fireLoop_removal cbOf l1 i l2 _ j hnd hj hi hrem
  · intro hagree
    unfold fireOnStateChanged
    rw [fireLoop_raises_independent cbOf cbOf2 hagree]
  · exact List.length_map chain _
  · intro nd hnd
    exact List.mem_map.mpr ⟨nd, hnd, rfl⟩

theorem C9_stateChange_fanout_witness :
    (([1, 2, 3] : List Nat) = [] ++ 1 :: [2, 3] ∧
     ([1, 2, 3] : List Nat).Nodup ∧
     2 ∈ [2, 3] ∧
     1 ∈ (fireOnStateChanged (fun cid =>
        if cid = 1 then CbSpec.mk [2] true else CbSpec.mk [] false)
        [1, 2, 3]).1 ∧
     2 ∈ ((fun cid : Nat => if cid = 1 then CbSpec.mk [2] true
        else CbSpec.mk [] false) 1).removes) ∧
    2 ∉ (fireOnStateChanged (fun cid =>
        if cid = 1 then CbSpec.mk [2] true else CbSpec.mk [] false)
        [1, 2, 3]).1 :=
  ⟨⟨rfl, by decide, by decide, by decide, by decide⟩,
   (C9_stateChange_fanout
      (fun cid => if cid = 1 then CbSpec.mk [2] true else CbSpec.mk [] false)
      (fun cid => if cid = 1 then CbSpec.mk [2] true else CbSpec.mk [] false)
      [1, 2, 3] []).2.1 [] 1 [2, 3] 2 rfl (by decide) (by decide)
      (by decide) (by decide)⟩

/-- The reporting loop stops exactly at the first gap `g` when one exists
below the final segment. -/
lemma reportLoop_gap (N : Nat) (recv : List Nat) :
    ∀ (fuel next g : Nat), next ≤ g → g ≤ N → g ∉ recv →
      (∀ j, next ≤ j → j < g → j ∈ recv) → g - next ≤ fuel →
      reportLoop N recv next fuel =
        ((List.range' next (g - next)).map some, g, false) := by
  intro fuel
  induction fuel with
  | zero =>
      intro next g hng hgN hg hall hfuel
      have heq : g = next := by omega
      subst heq
      simp [reportLoop]
  | succ fuel ih =>
      intro next g hng hgN hg hall hfuel
      by_cases hgn : g = next
      · subst hgn
        show (if g ∈ recv then _ else ([], g, false)) = _
        rw [if_neg hg]
        simp
      · have hlt : next < g := by omega
        have hmem : next ∈ recv := hall next le_rfl hlt
        have hne : next ≠ N := by omega
        show (if next ∈ recv then
            if next = N then ([some next, none], next + 1, true)
            else
              let r := reportLoop N recv (next + 1) fuel
              (some next :: r.1, r.2)
          else ([], next, false)) = _
        rw [if_pos hmem, if_neg hne]
        rw [ih (next + 1) g (by omega) hgN hg
            (fun j hj1 hj2 => hall j (by omega) hj2) (by omega)]
        have hrange : List.range' next (g - next) =
            next :: List.range' (next + 1) (g - (next + 1)) := by
          have h1 : g - next = (g - (next + 1)) + 1 := by omega
          rw [h1, List.range'_succ]
        rw [hrange]
        rfl

/-- When every segment from `next` through `N` already has content, the
reporting loop fires them all, then the sentinel, and finishes. -/
lemma reportLoop_complete (N : Nat) (recv : List Nat) :
    ∀ (fuel next : Nat), next ≤ N →
      (∀ j, next ≤ j → j ≤ N → j ∈ recv) → N + 1 - next ≤ fuel →
      reportLoop N recv next fuel =
        ((List.range' next (N + 1 - next)).map some ++ [none],
         N + 1, true) := by
  intro fuel
  induction fuel with
  | zero =>
      intro next hnN hall hfuel
      omega
  | succ fuel ih =>
      intro next hnN hall hfuel
      have hmem : next ∈ recv := hall next le_rfl hnN
      show (if next ∈ recv then
          if next = N then ([some next, none], next + 1, true)
          else
            let r := reportLoop N recv (next + 1) fuel
            (some next :: r.1, r.2)
        else ([], next, false)) = _
      rw [if_pos hmem]
      by_cases hnEq : next = N
      · rw [if_pos hnEq]
        have h1 : N + 1 - next = 1 := by omega
        rw [h1, hnEq]
        rfl
      · rw [if_neg hnEq]
        rw [ih (next + 1) (by omega)
            (fun j hj1 hj2 => hall j (by omega) hj2) (by omega)]
        have hrange : List.range' next (N + 1 - next) =
            next :: List.range' (next + 1) (N + 1 - (next + 1)) := by
          have h1 : N + 1 - next = (N + 1 - (next + 1)) + 1 := by omega
          rw [h1, List.range'_succ]
        rw [hrange]
        rfl

lemma range_decomp (next g : Nat) (h : next ≤ g) :
    List.range g = List.range next ++ List.range' next (g - next) := by
  rw [List.range_eq_range', List.range_eq_range']
  have h1 := List.range'_append 0 next (g - next) 1
  simp only [Nat.zero_add, Nat.one_mul] at h1
  rw [h1]
  congr 1
  omega

lemma arrive_step (N : Nat) (p : List Nat) (st : SSState) (s : Nat)
    (hInv : InvSS N p st) (hs : s ∉ p) (hsN : s ≤ N) :
    InvSS N (p ++ [s]) (arrive N st s) := by
  obtain ⟨recv0, next0, done0, out0⟩ := st
  obtain ⟨hrecv, hnext, hlow, hgap, hdone, hout⟩ := hInv
  simp only at hrecv hnext hlow hgap hdone hout
  by_cases hd : done0 = true
  · have hN1 := hdone.mp hd
    exact absurd (hlow s (by omega)) hs
  · have hne1 : next0 ≠ N + 1 := fun h => hd (hdone.mpr h)
    have hnN : next0 ≤ N := by omega
    have hnp : next0 ∉ p := hgap hnN
    unfold arrive
    rw [if_neg hd]
    dsimp only
    by_cases hsnext : s = next0
    · subst hsnext
      by_cases hex : ∃ j, s < j ∧ j ≤ N ∧ j ∉ p
      · -- there is a gap strictly above s and at most N
        have hgP := Nat.find_spec hex
        set g := Nat.find hex with hgdef
        have hglt : s < g := hgP.1
        have hgN : g ≤ N := hgP.2.1
        have hgp : g ∉ p := hgP.2.2
        have hall : ∀ j, s ≤ j → j < g → j ∈ s :: recv0 := by
          intro j hj1 hj2
          rcases Nat.eq_or_lt_of_le hj1 with hj | hj
          · rw [← hj]
            exact List.mem_cons_self s recv0
          · have hjN : j ≤ N := by omega
            have hmin := Nat.find_min hex hj2
            push_neg at hmin
            exact List.mem_cons_of_mem s ((hrecv j).mpr (hmin hj hjN))
        have hgrecv : g ∉ s :: recv0 := by
          intro hmem
          rcases List.mem_cons.mp hmem with h | h
          · omega
          · exact hgp ((hrecv g).mp h)
        rw [reportLoop_gap N (s :: recv0) (N + 1 - s) s g (by omega)
            hgN hgrecv hall (by omega)]
        refine ⟨?_, ?_, ?_, ?_, ?_, ?_⟩
        · show ∀ x, x ∈ s :: recv0 ↔ x ∈ p ++ [s]
          intro x
          rw [List.mem_cons, List.mem_append, List.mem_singleton, hrecv x]
          tauto
        · show g ≤ N + 1
          omega
        · show ∀ j, j < g → j ∈ p ++ [s]
          intro j hj
          rcases Nat.lt_trichotomy j s with h | h | h
          · exact List.mem_append_left [s] (hlow j h)
          · rw [h]
            exact List.mem_append_right p (List.mem_singleton.mpr rfl)
          · refine List.mem_append_left [s] ?_
            have hmin := Nat.find_min hex (by omega : j < g)
            push_neg at hmin
            exact hmin h (by omega)
        · show g ≤ N → g ∉ p ++ [s]
          intro hgN2 hmem
          rcases List.mem_append.mp hmem with h | h
          · exact hgp h
          · rw [List.mem_singleton] at h
            omega
        · show (false = true ↔ g = N + 1)
          constructor
          · intro h
            exact Bool.noConfusion h
          · intro h
            omega
        · show out0 ++ (List.range' s (g - s)).map some =
            (List.range g).map some ++ (if g = N + 1 then [none] else [])
          rw [if_neg (by omega : ¬ g = N + 1), List.append_nil]
          rw [hout, if_neg hne1, List.append_nil]
          rw [range_decomp s g (by omega), List.map_append]
      · -- no gap: everything from s through N has arrived
        push_neg at hex
        have hall : ∀ j, s ≤ j → j ≤ N → j ∈ s :: recv0 := by
          intro j hj1 hj2
          rcases Nat.eq_or_lt_of_le hj1 with hj | hj
          · rw [← hj]
            exact List.mem_cons_self s recv0
          · exact List.mem_cons_of_mem s ((hrecv j).mpr (hex j hj hj2))
        rw [reportLoop_complete N (s :: recv0) (N + 1 - s) s hnN hall
            le_rfl]
        refine ⟨?_, ?_, ?_, ?_, ?_, ?_⟩
        · show ∀ x, x ∈ s :: recv0 ↔ x ∈ p ++ [s]
          intro x
          rw [List.mem_cons, List.mem_append, List.mem_singleton, hrecv x]
          tauto
        · show N + 1 ≤ N + 1
          omega
        · show ∀ j, j < N + 1 → j ∈ p ++ [s]
          intro j hj
          rcases Nat.lt_trichotomy j s with h | h | h
          · exact List.mem_append_left [s] (hlow j h)
          · rw [h]
            exact List.mem_append_right p (List.mem_singleton.mpr rfl)
          · exact List.mem_append_left [s] (hex j h (by omega))
        · show N + 1 ≤ N → N + 1 ∉ p ++ [s]
          intro h
          omega
        · show (true = true ↔ N + 1 = N + 1)
          simp
        · show out0 ++ ((List.range' s (N + 1 - s)).map some ++ [none]) =
            (List.range (N + 1)).map some ++
              (if N + 1 = N + 1 then [none] else [])
          rw [if_pos rfl]
          rw [hout, if_neg hne1, List.append_nil]
          rw [range_decomp s (N + 1) (by omega), List.map_append,
              List.append_assoc]
    · -- the arrived segment is not the next to report: nothing fires
      have hnrecv : next0 ∉ s :: recv0 := by
        intro hmem
        rcases List.mem_cons.mp hmem with h | h
        · exact hsnext h.symm
        · exact hnp ((hrecv next0).mp h)
      rw [reportLoop_gap N (s :: recv0) (N + 1 - next0) next0 next0
          le_rfl hnN hnrecv (fun j hj1 hj2 => absurd hj1 (by omega))
          (by omega)]
      refine ⟨?_, ?_, ?_, ?_, ?_, ?_⟩
      · show ∀ x, x ∈ s :: recv0 ↔ x ∈ p ++ [s]
        intro x
        rw [List.mem_cons, List.mem_append, List.mem_singleton, hrecv x]
        tauto
      · show next0 ≤ N + 1
        exact hnext
      · show ∀ j, j < next0 → j ∈ p ++ [s]
        intro j hj
        exact List.mem_append_left [s] (hlow j hj)
      · show next0 ≤ N → next0 ∉ p ++ [s]
        intro hgN2 hmem
        rcases List.mem_append.mp hmem with h | h
        · exact hnp h
        · rw [List.mem_singleton] at h
          exact hsnext h.symm
      · show (false = true ↔ next0 = N + 1)
        constructor
        · intro h
          exact Bool.noConfusion h
        · intro h
          exact absurd h hne1
      · show out0 ++ (List.range' next0 (next0 - next0)).map some =
          (List.range next0).map some ++
            (if next0 = N + 1 then [none] else [])
        rw [Nat.sub_self]
        show out0 ++ [] = _
        rw [List.append_nil, hout, if_neg hne1, List.append_nil]

lemma run_invariant (N : Nat) :
    ∀ (order p : List Nat) (st : SSState),
      InvSS N p st → (p ++ order).Nodup → (∀ x ∈ p ++ order, x ≤ N) →
      InvSS N (p ++ order) (order.foldl (arrive N) st) := by
  intro order
  induction order with
  | nil =>
      intro p st hInv hnd hbound
      simpa using hInv
  | cons s rest ih =>
      intro p st hInv hnd hbound
      have hs : s ∉ p := by
        rcases List.nodup_append.mp hnd with ⟨h1, h2, hdisj⟩
        intro hsp
        exact hdisj hsp (List.mem_cons_self s rest)
      have hsN : s ≤ N :=
        hbound s (List.mem_append_right p (List.mem_cons_self s rest))
      have step := arrive_step N p st s hInv hs hsN
      have heq : (p ++ [s]) ++ rest = p ++ s :: rest := by simp
      have hfin := ih (p ++ [s]) (arrive N st s) step
        (by rw [heq]; exact hnd) (by rw [heq]; exact hbound)
      rw [heq] at hfin
      exact hfin

/-- C1: when segments 0..N each become OBJECT_READY exactly once, in any
interleaved order, with every response declaring final segment N, the
values fired to the handler's onSegment callbacks are exactly
segment 0, segment 1, ..., segment N followed by the end-of-stream
sentinel: each segment once, in strictly increasing order with no gaps,
regardless of arrival order. -/
theorem C1_segment_ordering (N : Nat) (order : List Nat)
    (hperm : order.Perm (List.range (N + 1))) :
    (runSegmentArrivals N order).out =
      (List.range (N + 1)).map some ++ [none] := by
  have hInv0 : InvSS N [] ⟨[], 0, false, []⟩ := by
    refine ⟨fun x => Iff.rfl, ?_, ?_, ?_, ?_, ?_⟩
    · show (0 : Nat) ≤ N + 1
      omega
    · show ∀ j, j < 0 → j ∈ ([] : List Nat)
      intro j hj
      exact absurd hj (by omega)
    · show (0 : Nat) ≤ N → 0 ∉ ([] : List Nat)
      intro _ h
      exact List.not_mem_nil 0 h
    · show (false = true ↔ (0 : Nat) = N + 1)
      constructor
      · intro h
        exact Bool.noConfusion h
      · intro h
        exact absurd h.symm (by omega)
    · show ([] : List (Option Nat)) =
        (List.range 0).map some ++ (if (0 : Nat) = N + 1 then [none] else [])
      rw [if_neg (by omega)]
      rfl
  have hnd : ([] ++ order).Nodup := by
    rw [List.nil_append]
    exact hperm.nodup_iff.mpr (List.nodup_range (N + 1))
  have hbound : ∀ x ∈ [] ++ order, x ≤ N := by
    intro x hx
    rw [List.nil_append] at hx
    have hx2 := List.mem_range.mp (hperm.mem_iff.mp hx)
    omega
  have hfin := run_invariant N order [] ⟨[], 0, false, []⟩ hInv0 hnd hbound
  rw [List.nil_append] at hfin
  show (order.foldl (arrive N) ⟨[], 0, false, []⟩).out = _
  obtain ⟨hrecv, hnext, hlow, hgap, hdone, hout⟩ := hfin
  have hnext1 : (order.foldl (arrive N) ⟨[], 0, false, []⟩).next = N + 1 := by
    by_contra hcon
    have hle : (order.foldl (arrive N) ⟨[], 0, false, []⟩).next ≤ N := by
      omega
    have h1 := hgap hle
    have h2 : (order.foldl (arrive N) ⟨[], 0, false, []⟩).next ∈
        List.range (N + 1) := List.mem_range.mpr (by omega)
    exact h1 (hperm.mem_iff.mpr h2)
  rw [hnext1] at hout
  rw [hout, if_pos rfl]

theorem C1_segment_ordering_witness :
    ([2, 0, 1] : List Nat).Perm (List.range (2 + 1)) ∧
    (runSegmentArrivals 2 [2, 0, 1]).out =
      (List.range (2 + 1)).map some ++ [none] :=
  ⟨by decide, C1_segment_ordering 2 [2, 0, 1] (by decide)⟩
